import Mathlib

/-!
Verification development for the virtual-shell repository's assembler and
stack-machine interpreter (the `cpu` command), together with the terminal
UI's edit-mode state handling from `src/app/page.tsx`.

The assembler/interpreter core ships only as a compiled wasm artifact in the
repository; its behaviour is therefore modelled here from the repository's
specification (spec.md) and its in-repo assembly documentation.  The terminal
UI state machine is embedded directly from `src/app/page.tsx`.
-/

namespace VirtualShell

/-- Modelled from the spec: the resolved instruction set of the stack-based
virtual machine (spec §3 data model; the interpreter source is not present in
the repository snapshot, only its wasm build).  Program addresses
(`jump`/`jumpif`/`jumpifz`) are absolute instruction indices resolved at
assembly time; memory addresses (`load`/`store`) are kept as integers and
range-checked at execution time. -/
inductive Instruction
  | push (n : Int)
  | pop
  | add
  | sub
  | mul
  | div
  | mod
  | dup
  | swap
  | load (addr : Int)
  | store (addr : Int)
  | jump (addr : Nat)
  | jumpif (addr : Nat)
  | jumpifz (addr : Nat)
  | cmp
  | print
  | printchar
  | read
  | halt
deriving Repr, DecidableEq

/-- Modelled from the spec: the runtime fault taxonomy of spec §7. -/
inductive Fault
  | stackUnderflow
  | divisionByZero
  | invalidAddress
  | inputExhausted
  | executionLimitExceeded
deriving Repr, DecidableEq

/-- Modelled from the spec: the assembly-time error taxonomy of spec §7.
Line-number diagnostics are omitted; only the kind matters here. -/
inductive SyntaxErrorKind
  | unknownInstruction
  | missingOperand
  | malformedLiteral
  | duplicateLabel
  | unresolvedLabel
deriving Repr, DecidableEq

/-- Modelled from the spec: an instruction operand as produced by the lexer —
either a signed integer literal or a bare identifier (a label reference,
spec §4.1). -/
inductive Operand
  | intLit (n : Int)
  | ident (name : String)
deriving Repr, DecidableEq

/-- Modelled from the spec: a lexer line record (spec §4.1): either a label
definition or an instruction line with an optional operand. -/
inductive LineRec
  | labelDef (name : String)
  | instrLine (mnemonic : String) (operand : Option Operand)
deriving Repr, DecidableEq

/-- Modelled from the spec: the VM state of spec §3 — operand stack (head is
the top), a 1024-cell zero-initialized memory, program counter, the
remaining input stream and the output transcript.  The `steps` field is a
ghost counter of executed instructions, used to observe the step budget; it
never influences control flow. -/
structure VM where
  stack : List Int
  mem : Nat → Int
  pc : Nat
  input : List Int
  output : String
  steps : Nat

/-- Modelled from the spec: a fresh VM state per run (spec §5 per-run
isolation): empty stack, zeroed memory, pc 0, empty transcript. -/
def initVM (input : List Int) : VM :=
  { stack := [], mem := fun _ => 0, pc := 0, input := input, output := "", steps := 0 }

/-- Result of one fetch-decode-execute step. -/
inductive StepResult
  | next (vm : VM)
  | halted (vm : VM)
  | faulted (k : Fault) (pc : Nat) (vm : VM)

/-- Modelled from the spec: one fetch-decode-execute step (spec §4.3
per-instruction semantics).  Arithmetic and comparison pop the top value as
`b` and the next as `a` and push `a OP b`; `div`/`mod` fault with
DivisionByZero when `b = 0`; memory addresses are checked against
`[0, 1024)`; a pc past the last instruction is an implicit halt. -/
def step (prog : List Instruction) (vm : VM) : StepResult :=
  match prog[vm.pc]? with
  | none => .halted vm
  | some i =>
    let v' : VM := { vm with steps := vm.steps + 1 }
    match i with
    | .push n => .next { v' with stack := n :: v'.stack, pc := v'.pc + 1 }
    | .pop =>
      match v'.stack with
      | [] => .faulted .stackUnderflow v'.pc v'
      | _ :: s => .next { v' with stack := s, pc := v'.pc + 1 }
    | .add =>
      match v'.stack with
      | b :: a :: s => .next { v' with stack := (a + b) :: s, pc := v'.pc + 1 }
      | _ => .faulted .stackUnderflow v'.pc v'
    | .sub =>
      match v'.stack with
      | b :: a :: s => .next { v' with stack := (a - b) :: s, pc := v'.pc + 1 }
      | _ => .faulted .stackUnderflow v'.pc v'
    | .mul =>
      match v'.stack with
      | b :: a :: s => .next { v' with stack := (a * b) :: s, pc := v'.pc + 1 }
      | _ => .faulted .stackUnderflow v'.pc v'
    | .div =>
      match v'.stack with
      | b :: a :: s =>
        if b = 0 then .faulted .divisionByZero v'.pc v'
        else .next { v' with stack := (a.tdiv b) :: s, pc := v'.pc + 1 }
      | _ => .faulted .stackUnderflow v'.pc v'
    | .mod =>
      match v'.stack with
      | b :: a :: s =>
        if b = 0 then .faulted .divisionByZero v'.pc v'
        else .next { v' with stack := (a.tmod b) :: s, pc := v'.pc + 1 }
      | _ => .faulted .stackUnderflow v'.pc v'
    | .dup =>
      match v'.stack with
      | [] => .faulted .stackUnderflow v'.pc v'
      | x :: s => .next { v' with stack := x :: x :: s, pc := v'.pc + 1 }
    | .swap =>
      match v'.stack with
      | x :: y :: s => .next { v' with stack := y :: x :: s, pc := v'.pc + 1 }
      | _ => .faulted .stackUnderflow v'.pc v'
    | .load addr =>
      if 0 ≤ addr ∧ addr < 1024 then
        .next { v' with stack := v'.mem addr.toNat :: v'.stack, pc := v'.pc + 1 }
      else .faulted .invalidAddress v'.pc v'
    | .store addr =>
      match v'.stack with
      | [] => .faulted .stackUnderflow v'.pc v'
      | x :: s =>
        if 0 ≤ addr ∧ addr < 1024 then
          .next { v' with stack := s
                          mem := fun i => if i = addr.toNat then x else v'.mem i
                          pc := v'.pc + 1 }
        else .faulted .invalidAddress v'.pc v'
    | .jump addr => .next { v' with pc := addr }
    | .jumpif addr =>
      match v'.stack with
      | [] => .faulted .stackUnderflow v'.pc v'
      | x :: s =>
        if x ≠ 0 then .next { v' with stack := s, pc := addr }
        else .next { v' with stack := s, pc := v'.pc + 1 }
    | .jumpifz addr =>
      match v'.stack with
      | [] => .faulted .stackUnderflow v'.pc v'
      | x :: s =>
        if x = 0 then .next { v' with stack := s, pc := addr }
        else .next { v' with stack := s, pc := v'.pc + 1 }
    | .cmp =>
      match v'.stack with
      | b :: a :: s =>
        .next { v' with stack := (if a > b then (1 : Int) else if a = b then 0 else -1) :: s
                        pc := v'.pc + 1 }
      | _ => .faulted .stackUnderflow v'.pc v'
    | .print =>
      match v'.stack with
      | [] => .faulted .stackUnderflow v'.pc v'
      | x :: s => .next { v' with stack := s, output := v'.output ++ toString x, pc := v'.pc + 1 }
    | .printchar =>
      match v'.stack with
      | [] => .faulted .stackUnderflow v'.pc v'
      | x :: s =>
        .next { v' with stack := s
                        output := v'.output ++ String.singleton (Char.ofNat x.toNat)
                        pc := v'.pc + 1 }
    | .read =>
      match v'.input with
      | [] => .faulted .inputExhausted v'.pc v'
      | x :: rest => .next { v' with stack := x :: v'.stack, input := rest, pc := v'.pc + 1 }
    | .halt => .halted v'

/-- Terminal outcome of a run: Halted or Faulted, with the final VM state. -/
inductive Outcome
  | halted (vm : VM)
  | faulted (k : Fault) (pc : Nat) (vm : VM)

/-- Terminal status stripped of the VM state, for decidable observations. -/
inductive Status
  | halted
  | faulted (k : Fault) (pc : Nat)
deriving Repr, DecidableEq

/-- Status of an outcome. -/
def Outcome.status : Outcome → Status
  | .halted _ => .halted
  | .faulted k pc _ => .faulted k pc

/-- Fault kind of an outcome, if any (ignoring the faulting pc). -/
def Outcome.faultKind : Outcome → Option Fault
  | .halted _ => none
  | .faulted k _ _ => some k

/-- Final operand stack of an outcome. -/
def Outcome.stackOf : Outcome → List Int
  | .halted vm => vm.stack
  | .faulted _ _ vm => vm.stack

/-- Final output transcript of an outcome. -/
def Outcome.outputOf : Outcome → String
  | .halted vm => vm.output
  | .faulted _ _ vm => vm.output

/-- Number of instructions executed by the run that produced this outcome. -/
def Outcome.stepsOf : Outcome → Nat
  | .halted vm => vm.steps
  | .faulted _ _ vm => vm.steps

/-- Modelled from the spec: the fetch-decode-execute loop driven by a step
budget (spec §5): exhausting the budget faults with ExecutionLimitExceeded
instead of hanging. -/
def run (prog : List Instruction) (fuel : Nat) (vm : VM) : Outcome :=
  match fuel with
  | 0 => .faulted .executionLimitExceeded vm.pc vm
  | f + 1 =>
    match step prog vm with
    | .next vm' => run prog f vm'
    | .halted vm' => .halted vm'
    | .faulted k pc vm' => .faulted k pc vm'

/-- Modelled from the spec: assembler pass 1 (spec §4.2).  Walks the line
records with an address counter that only `instrLine` records advance, and
binds each label name to the current counter; binding a name twice fails with
DuplicateLabel. -/
def pass1 : List LineRec → Nat → List (String × Nat) → Except SyntaxErrorKind (List (String × Nat))
  | [], _, table => .ok table
  | .labelDef name :: rest, counter, table =>
    if (table.lookup name).isSome then .error .duplicateLabel
    else pass1 rest counter ((name, counter) :: table)
  | .instrLine _ _ :: rest, counter, table => pass1 rest (counter + 1) table

/-- Number of instruction records (labels do not consume an address). -/
def instrCount (src : List LineRec) : Nat :=
  (src.filter fun r => match r with | .instrLine _ _ => true | _ => false).length

/-- Modelled from the spec: resolution of a program-address operand for the
jump family (spec §3/§4.2): an integer literal must already lie within the
program (out-of-range jump targets are assembly-time errors; the spec leaves
the kind unnamed, MalformedLiteral is used here), while an identifier is
looked up in the label table and fails with UnresolvedLabel when absent. -/
def resolveJumpTarget (count : Nat) (table : List (String × Nat)) :
    Operand → Except SyntaxErrorKind Nat
  | .intLit n => if 0 ≤ n ∧ n.toNat ≤ count then .ok n.toNat else .error .malformedLiteral
  | .ident x =>
    match table.lookup x with
    | some a => .ok a
    | none => .error .unresolvedLabel

/-- Modelled from the spec: resolution of a memory-address operand for
`load`/`store` (spec §3/§4.2): integer literals are kept unchecked (memory
addresses are validated at execution time); identifiers are resolved via the
label table, failing with UnresolvedLabel when absent. -/
def resolveMemTarget (table : List (String × Nat)) : Operand → Except SyntaxErrorKind Int
  | .intLit n => .ok n
  | .ident x =>
    match table.lookup x with
    | some a => .ok (a : Int)
    | none => .error .unresolvedLabel

/-- Operand check for a zero-operand mnemonic (spec §4.2 arity validation;
the spec leaves the kind of an extra-operand error unnamed, MalformedLiteral
is used here). -/
def noOperand (op : Option Operand) (i : Instruction) : Except SyntaxErrorKind Instruction :=
  match op with
  | none => .ok i
  | some _ => .error .malformedLiteral

/-- Modelled from the spec: pass-2 encoding of one instruction line (spec
§4.2): mnemonic dispatch over the fixed set of spec §6, operand arity
validation, and operand resolution; unknown mnemonics fail with
UnknownInstruction. -/
def encode (count : Nat) (table : List (String × Nat)) (m : String) (op : Option Operand) :
    Except SyntaxErrorKind Instruction :=
  match m with
  | "push" =>
    match op with
    | some (.intLit n) => .ok (.push n)
    | some (.ident _) => .error .malformedLiteral
    | none => .error .missingOperand
  | "pop" => noOperand op .pop
  | "add" => noOperand op .add
  | "sub" => noOperand op .sub
  | "mul" => noOperand op .mul
  | "div" => noOperand op .div
  | "mod" => noOperand op .mod
  | "dup" => noOperand op .dup
  | "swap" => noOperand op .swap
  | "load" =>
    match op with
    | some o => (resolveMemTarget table o).map .load
    | none => .error .missingOperand
  | "store" =>
    match op with
    | some o => (resolveMemTarget table o).map .store
    | none => .error .missingOperand
  | "jump" =>
    match op with
    | some o => (resolveJumpTarget count table o).map .jump
    | none => .error .missingOperand
  | "jumpif" =>
    match op with
    | some o => (resolveJumpTarget count table o).map .jumpif
    | none => .error .missingOperand
  | "jumpifz" =>
    match op with
    | some o => (resolveJumpTarget count table o).map .jumpifz
    | none => .error .missingOperand
  | "cmp" => noOperand op .cmp
  | "print" => noOperand op .print
  | "printchar" => noOperand op .printchar
  | "read" => noOperand op .read
  | "halt" => noOperand op .halt
  | _ => .error .unknownInstruction

/-- Modelled from the spec: assembler pass 2 (spec §4.2): walk the instruction
records again, encoding each one against the completed label table. -/
def pass2 (count : Nat) (table : List (String × Nat)) :
    List LineRec → Except SyntaxErrorKind (List Instruction)
  | [] => .ok []
  | .labelDef _ :: rest => pass2 count table rest
  | .instrLine m op :: rest =>
    match encode count table m op with
    | .error e => .error e
    | .ok i =>
      match pass2 count table rest with
      | .error e => .error e
      | .ok is => .ok (i :: is)

/-- Modelled from the spec: the two-pass assembler (spec §4.2): pass 1 builds
the label table, pass 2 encodes; any SyntaxError blocks Program creation
entirely. -/
def assemble (src : List LineRec) : Except SyntaxErrorKind (List Instruction) :=
  match pass1 src 0 [] with
  | .error e => .error e
  | .ok table => pass2 (instrCount src) table src

/-- Modelled from the spec: the end-to-end pipeline (spec §2/§6): assemble the
source records, then run the resulting Program on a fresh VM under the given
step budget.  A SyntaxError means execution never starts. -/
def runSource (src : List LineRec) (input : List Int) (budget : Nat) :
    Except SyntaxErrorKind Outcome :=
  (assemble src).map fun prog => run prog budget (initVM input)

/-- Source records of `push 5 / push 3 / sub / print` (spec §8). -/
def subPrintSrc : List LineRec :=
  [.instrLine "push" (some (.intLit 5)), .instrLine "push" (some (.intLit 3)),
   .instrLine "sub" none, .instrLine "print" none]

/-- Source records of `push 5 / push 3 / cmp` (spec §8). -/
def cmpGtSrc : List LineRec :=
  [.instrLine "push" (some (.intLit 5)), .instrLine "push" (some (.intLit 3)),
   .instrLine "cmp" none]

/-- Source records of `push 3 / push 5 / cmp` (spec §8). -/
def cmpLtSrc : List LineRec :=
  [.instrLine "push" (some (.intLit 3)), .instrLine "push" (some (.intLit 5)),
   .instrLine "cmp" none]

/-- Source records of `push 4 / push 4 / cmp` (spec §8). -/
def cmpEqSrc : List LineRec :=
  [.instrLine "push" (some (.intLit 4)), .instrLine "push" (some (.intLit 4)),
   .instrLine "cmp" none]

/-- Source records of `push 7 / push 0 / div` (spec §8). -/
def divZeroSrc : List LineRec :=
  [.instrLine "push" (some (.intLit 7)), .instrLine "push" (some (.intLit 0)),
   .instrLine "div" none]

/-- Source records of `push 1 / store 1023` (spec §8: `store 1023` succeeds). -/
def storeOkSrc : List LineRec :=
  [.instrLine "push" (some (.intLit 1)), .instrLine "store" (some (.intLit 1023))]

/-- Source records of `push 1 / store 1024` (spec §8: Faulted(InvalidAddress)). -/
def storeBadSrc : List LineRec :=
  [.instrLine "push" (some (.intLit 1)), .instrLine "store" (some (.intLit 1024))]

/-- Source records of `push 5 / halt` (spec §8). -/
def pushHaltSrc : List LineRec :=
  [.instrLine "push" (some (.intLit 5)), .instrLine "halt" none]

/-- Source records of the self-looping program `loop: jump loop` (spec §8). -/
def selfLoopSrc : List LineRec :=
  [.labelDef "loop", .instrLine "jump" (some (.ident "loop"))]

/-- Source records of `jump missing` with `missing` never defined (spec §8). -/
def jumpMissingSrc : List LineRec :=
  [.instrLine "jump" (some (.ident "missing"))]

/-- Line records of `examples/factorial.asm`, transcribed instruction for
instruction (comments and blank lines are dropped, exactly as the lexer of
spec §4.1 would). -/
def factorialSrc : List LineRec :=
  [.instrLine "push" (some (.intLit 1)),
   .instrLine "push" (some (.intLit 5)),
   .labelDef "loop",
   .instrLine "dup" none,
   .instrLine "mul" none,
   .instrLine "push" (some (.intLit 1)),
   .instrLine "swap" none,
   .instrLine "sub" none,
   .instrLine "dup" none,
   .instrLine "push" (some (.intLit 0)),
   .instrLine "swap" none,
   .instrLine "cmp" none,
   .instrLine "push" (some (.intLit 1)),
   .instrLine "cmp" none,
   .instrLine "jumpifz" (some (.ident "loop")),
   .instrLine "pop" none,
   .instrLine "print" none,
   .instrLine "halt" none]

/-- The instruction sequence factorial.asm assembles to. -/
def factorialProg : List Instruction :=
  [.push 1, .push 5, .dup, .mul, .push 1, .swap, .sub, .dup, .push 0, .swap,
   .cmp, .push 1, .cmp, .jumpifz 2, .pop, .print, .halt]

/-- A VM state with a given operand stack and otherwise-fresh components,
used to instantiate the step-level theorems. -/
def vmOfStack (s : List Int) : VM :=
  { stack := s, mem := fun _ => 0, pc := 0, input := [], output := "", steps := 0 }

/-- Unfolding of `run` on a positive budget. -/
theorem run_succ (prog : List Instruction) (f : Nat) (vm : VM) :
    run prog (f + 1) vm =
      match step prog vm with
      | .next vm' => run prog f vm'
      | .halted vm' => .halted vm'
      | .faulted k pc vm' => .faulted k pc vm' := rfl

/-- C1: the binary arithmetic instructions pop the top value as `b` and the
next value as `a` and push `a OP b` — in particular `sub` computes `a − b` —
and the program `push 5 / push 3 / sub / print` produces output "2". -/
theorem arith_pop_order (prog : List Instruction) (vm : VM) (a b : Int) (s : List Int)
    (hs : vm.stack = b :: a :: s) :
    (prog[vm.pc]? = some .add →
      step prog vm = .next { vm with steps := vm.steps + 1, stack := (a + b) :: s, pc := vm.pc + 1 }) ∧
    (prog[vm.pc]? = some .sub →
      step prog vm = .next { vm with steps := vm.steps + 1, stack := (a - b) :: s, pc := vm.pc + 1 }) ∧
    (prog[vm.pc]? = some .mul →
      step prog vm = .next { vm with steps := vm.steps + 1, stack := (a * b) :: s, pc := vm.pc + 1 }) ∧
    (prog[vm.pc]? = some .div → b ≠ 0 →
      step prog vm = .next { vm with steps := vm.steps + 1, stack := (a.tdiv b) :: s, pc := vm.pc + 1 }) ∧
    (prog[vm.pc]? = some .mod → b ≠ 0 →
      step prog vm = .next { vm with steps := vm.steps + 1, stack := (a.tmod b) :: s, pc := vm.pc + 1 }) ∧
    (runSource subPrintSrc [] 10).map Outcome.outputOf = .ok "2" := by
  refine ⟨fun h => ?_, fun h => ?_, fun h => ?_, fun h hb => ?_, fun h hb => ?_, rfl⟩
  · simp [step, h, hs]
  · simp [step, h, hs]
  · simp [step, h, hs]
  · simp [step, h, hs, hb]
  · simp [step, h, hs, hb]

/-- Witness for C1 at a concrete state: `sub` on stack `[3, 5]` (5 pushed
before 3) yields `[2]`. -/
theorem arith_pop_order_witness :
    step [Instruction.sub] (vmOfStack [3, 5]) =
      .next { vmOfStack [3, 5] with steps := 1, stack := [2], pc := 1 } :=
  ((arith_pop_order [Instruction.sub] (vmOfStack [3, 5]) 5 3 [] rfl).2.1) rfl

/-- C3: `cmp` pops `b` then `a` and pushes 1 when `a > b`, 0 when `a = b` and
−1 when `a < b`; in particular `push 5 / push 3 / cmp` leaves 1 on top,
`push 3 / push 5 / cmp` leaves −1, and `push 4 / push 4 / cmp` leaves 0. -/
theorem cmp_three_way (prog : List Instruction) (vm : VM) (a b : Int) (s : List Int)
    (hpc : prog[vm.pc]? = some .cmp) (hs : vm.stack = b :: a :: s) :
    (a > b →
      step prog vm = .next { vm with steps := vm.steps + 1, stack := (1 : Int) :: s, pc := vm.pc + 1 }) ∧
    (a = b →
      step prog vm = .next { vm with steps := vm.steps + 1, stack := (0 : Int) :: s, pc := vm.pc + 1 }) ∧
    (a < b →
      step prog vm = .next { vm with steps := vm.steps + 1, stack := (-1 : Int) :: s, pc := vm.pc + 1 }) ∧
    (runSource cmpGtSrc [] 10).map Outcome.stackOf = .ok [1] ∧
    (runSource cmpLtSrc [] 10).map Outcome.stackOf = .ok [-1] ∧
    (runSource cmpEqSrc [] 10).map Outcome.stackOf = .ok [0] := by
  refine ⟨fun hgt => ?_, fun heq => ?_, fun hlt => ?_, rfl, rfl, rfl⟩
  · simp [step, hpc, hs, hgt]
  · simp [step, hpc, hs, heq]
  · have h1 : ¬ a > b := not_lt.mpr (le_of_lt hlt)
    have h2 : a ≠ b := ne_of_lt hlt
    simp [step, hpc, hs, h1, h2]

/-- Witness for C3 at a concrete state: `cmp` on stack `[3, 5]` pushes 1. -/
theorem cmp_three_way_witness :
    step [Instruction.cmp] (vmOfStack [3, 5]) =
      .next { vmOfStack [3, 5] with steps := 1, stack := [1], pc := 1 } :=
  ((cmp_three_way [Instruction.cmp] (vmOfStack [3, 5]) 5 3 [] rfl rfl).1) (by norm_num)

/-- C4: executing `div` or `mod` with top-of-stack `b = 0` terminates the run
immediately with Faulted(DivisionByZero) at the current pc — no further
instruction executes (exactly one instruction is charged) — and
`push 7 / push 0 / div` faults with DivisionByZero at pc 2. -/
theorem div_mod_by_zero_fault (prog : List Instruction) (vm : VM) (a : Int) (s : List Int)
    (fuel : Nat) (hs : vm.stack = 0 :: a :: s) (hf : fuel ≠ 0) :
    (prog[vm.pc]? = some .div →
      run prog fuel vm = .faulted .divisionByZero vm.pc { vm with steps := vm.steps + 1 }) ∧
    (prog[vm.pc]? = some .mod →
      run prog fuel vm = .faulted .divisionByZero vm.pc { vm with steps := vm.steps + 1 }) ∧
    (runSource divZeroSrc [] 10).map Outcome.status = .ok (.faulted .divisionByZero 2) := by
  obtain ⟨f, rfl⟩ := Nat.exists_eq_succ_of_ne_zero hf
  refine ⟨fun h => ?_, fun h => ?_, rfl⟩ <;>
    · rw [run_succ]
      simp [step, h, hs]

/-- Witness for C4 at a concrete state: `div` on stack `[0, 7]` faults. -/
theorem div_mod_by_zero_fault_witness :
    run [Instruction.div] 5 (vmOfStack [0, 7]) =
      .faulted .divisionByZero 0 { vmOfStack [0, 7] with steps := 1 } :=
  ((div_mod_by_zero_fault [Instruction.div] (vmOfStack [0, 7]) 7 [] 5 rfl (by decide)).1) rfl

/-- C5: with a non-empty-enough stack, `store addr` (and `load addr`) succeeds
exactly when `addr ∈ [0, 1024)` and otherwise terminates the run with
Faulted(InvalidAddress); in particular `store 1023` succeeds and `store 1024`
faults with InvalidAddress. -/
theorem store_load_address_check (prog : List Instruction) (vm : VM) (addr v : Int)
    (s : List Int) (hs : vm.stack = v :: s) :
    (prog[vm.pc]? = some (.store addr) → 0 ≤ addr → addr < 1024 →
      step prog vm = .next { vm with steps := vm.steps + 1, stack := s, mem := fun i => if i = addr.toNat then v else vm.mem i, pc := vm.pc + 1 }) ∧
    (prog[vm.pc]? = some (.store addr) → ¬(0 ≤ addr ∧ addr < 1024) → ∀ fuel, fuel ≠ 0 →
      run prog fuel vm = .faulted .invalidAddress vm.pc { vm with steps := vm.steps + 1 }) ∧
    (prog[vm.pc]? = some (.load addr) → 0 ≤ addr → addr < 1024 →
      step prog vm = .next { vm with steps := vm.steps + 1, stack := vm.mem addr.toNat :: vm.stack, pc := vm.pc + 1 }) ∧
    (prog[vm.pc]? = some (.load addr) → ¬(0 ≤ addr ∧ addr < 1024) → ∀ fuel, fuel ≠ 0 →
      run prog fuel vm = .faulted .invalidAddress vm.pc { vm with steps := vm.steps + 1 }) ∧
    (runSource storeOkSrc [] 10).map Outcome.status = .ok .halted ∧
    (runSource storeBadSrc [] 10).map Outcome.status = .ok (.faulted .invalidAddress 1) := by
  refine ⟨fun h h0 h1 => ?_, fun h hrange fuel hf => ?_, fun h h0 h1 => ?_,
          fun h hrange fuel hf => ?_, rfl, rfl⟩
  · simp [step, h, hs, h0, h1]
  · obtain ⟨f, rfl⟩ := Nat.exists_eq_succ_of_ne_zero hf
    rw [run_succ]
    simp [step, h, hs, hrange]
  · simp [step, h, h0, h1]
  · obtain ⟨f, rfl⟩ := Nat.exists_eq_succ_of_ne_zero hf
    rw [run_succ]
    simp [step, h, hrange]

/-- Witness for C5 at a concrete state: `store 1024` on stack `[1]` faults
with InvalidAddress. -/
theorem store_load_address_check_witness :
    run [Instruction.store 1024] 5 (vmOfStack [1]) =
      .faulted .invalidAddress 0 { vmOfStack [1] with steps := 1 } :=
  ((store_load_address_check [Instruction.store 1024] (vmOfStack [1]) 1024 1 [] rfl).2.1)
    rfl (by norm_num) 5 (by decide)

/-- C9: a pc that advances past the last instruction without a fault ends the
run Halted (an implicit halt), never Faulted; and `push 5 / halt` ends Halted
with final stack `[5]` and empty output. -/
theorem implicit_halt (prog : List Instruction) (vm : VM) (fuel : Nat)
    (hpc : prog.length ≤ vm.pc) (hf : fuel ≠ 0) :
    run prog fuel vm = .halted vm ∧
    (runSource pushHaltSrc [] 10).map Outcome.status = .ok .halted ∧
    (runSource pushHaltSrc [] 10).map Outcome.stackOf = .ok [5] ∧
    (runSource pushHaltSrc [] 10).map Outcome.outputOf = .ok "" := by
  obtain ⟨f, rfl⟩ := Nat.exists_eq_succ_of_ne_zero hf
  refine ⟨?_, rfl, rfl, rfl⟩
  rw [run_succ]
  simp [step, List.getElem?_eq_none hpc]

/-- Witness for C9 at a concrete state: pc 3 is past the end of a two
instruction program, so the run halts implicitly. -/
theorem implicit_halt_witness :
    run [Instruction.push 5, Instruction.halt] 4 { vmOfStack [] with pc := 3 } =
      .halted { vmOfStack [] with pc := 3 } :=
  (implicit_halt [Instruction.push 5, Instruction.halt] { vmOfStack [] with pc := 3 } 4
    (by decide) (by decide)).1

/-- VM state carried by a step result. -/
def StepResult.vmOf : StepResult → VM
  | .next vm => vm
  | .halted vm => vm
  | .faulted _ _ vm => vm

/-- One step charges at most one executed instruction. -/
theorem step_vmOf_steps (prog : List Instruction) (vm : VM) :
    ((step prog vm).vmOf).steps ≤ vm.steps + 1 := by
  rcases hfetch : (prog[vm.pc]?) with - | i
  · simp [step, hfetch, StepResult.vmOf]
  · rcases i <;>
      rcases hst : vm.stack with - | ⟨x, - | ⟨y, s⟩⟩ <;>
      rcases hin : vm.input with - | ⟨z, zs⟩ <;>
      simp only [step, hfetch, hst, hin] <;>
      (try split_ifs) <;>
      simp [StepResult.vmOf]

/-- Unfolding of `run` when the step continues. -/
theorem run_next (prog : List Instruction) (f : Nat) (vm vm' : VM)
    (h : step prog vm = .next vm') : run prog (f + 1) vm = run prog f vm' := by
  rw [run_succ, h]

/-- Unfolding of `run` when the step halts. -/
theorem run_halted_of_step (prog : List Instruction) (f : Nat) (vm vm' : VM)
    (h : step prog vm = .halted vm') : run prog (f + 1) vm = .halted vm' := by
  rw [run_succ, h]

/-- Unfolding of `run` when the step faults. -/
theorem run_faulted_of_step (prog : List Instruction) (f : Nat) (vm : VM) (k : Fault)
    (pcf : Nat) (vm' : VM) (h : step prog vm = .faulted k pcf vm') :
    run prog (f + 1) vm = .faulted k pcf vm' := by
  rw [run_succ, h]

/-- A run with budget `fuel` executes at most `fuel` instructions. -/
theorem run_steps_le (prog : List Instruction) (fuel : Nat) (vm : VM) :
    (run prog fuel vm).stepsOf ≤ vm.steps + fuel := by
  induction fuel generalizing vm with
  | zero => simp [run, Outcome.stepsOf]
  | succ f ih =>
    have hb := step_vmOf_steps prog vm
    rcases hstep : step prog vm with vm' | vm' | ⟨k, pcf, vm'⟩
    · rw [hstep] at hb
      simp only [StepResult.vmOf] at hb
      rw [run_next prog f vm vm' hstep]
      exact le_trans (ih vm') (by omega)
    · rw [hstep] at hb
      simp only [StepResult.vmOf] at hb
      rw [run_halted_of_step prog f vm vm' hstep]
      simp only [Outcome.stepsOf]
      omega
    · rw [hstep] at hb
      simp only [StepResult.vmOf] at hb
      rw [run_faulted_of_step prog f vm k pcf vm' hstep]
      simp only [Outcome.stepsOf]
      omega

/-- Running the self-loop `[jump 0]` from pc 0 always exhausts the budget:
after exactly `n` executed instructions it faults with
ExecutionLimitExceeded at pc 0. -/
theorem selfLoop_run (n : Nat) (vm : VM) (hpc : vm.pc = 0) :
    run [Instruction.jump 0] n vm =
      .faulted .executionLimitExceeded 0 { vm with steps := vm.steps + n, pc := 0 } := by
  induction n generalizing vm with
  | zero =>
    obtain ⟨st, me, pc, inp, out, sp⟩ := vm
    simp only at hpc
    subst hpc
    simp [run]
  | succ f ih =>
    have hstep : step [Instruction.jump 0] vm = .next { vm with steps := vm.steps + 1, pc := 0 } := by
      simp [step, hpc]
    rw [run_next [Instruction.jump 0] f vm _ hstep,
        ih { vm with steps := vm.steps + 1, pc := 0 } rfl]
    obtain ⟨st, me, pc, inp, out, sp⟩ := vm
    simp only
    have harith : sp + 1 + f = sp + (f + 1) := by omega
    rw [harith]

/-- C6: every run with a finite step budget performs at most that many
instructions (it terminates instead of hanging), and the self-looping
program `loop: jump loop` with step budget 1000 faults with
ExecutionLimitExceeded after exactly 1000 executed instructions. -/
theorem step_budget_enforced :
    (∀ (prog : List Instruction) (fuel : Nat) (vm : VM),
      (run prog fuel vm).stepsOf ≤ vm.steps + fuel) ∧
    (runSource selfLoopSrc [] 1000).map Outcome.status =
      .ok (.faulted .executionLimitExceeded 0) ∧
    (runSource selfLoopSrc [] 1000).map Outcome.stepsOf = .ok 1000 := by
  have hasm : assemble selfLoopSrc = .ok [Instruction.jump 0] := rfl
  have hrun : run [Instruction.jump 0] 1000
        { stack := [], mem := fun _ => 0, pc := 0, input := [], output := "", steps := 0 } =
      .faulted .executionLimitExceeded 0
        { stack := [], mem := fun _ => 0, pc := 0, input := [], output := "", steps := 1000 } := by
    simpa [initVM] using selfLoop_run 1000 (initVM []) rfl
  refine ⟨run_steps_le, ?_, ?_⟩ <;>
    simp [runSource, hasm, Except.map, initVM, hrun, Outcome.status, Outcome.stepsOf]

/-- Invariant of the factorial example program under the documented
semantics: the output stays empty and control cycles through the loop body
with a counter whose absolute value is at least 2 (each full iteration maps
the counter `c` to `1 − c·c`), so the run never reaches `pop`/`print`/`halt`
at addresses 14–16. -/
def factorialLoopInv (vm : VM) : Prop :=
  vm.output = "" ∧
  ∃ c r : Int, (c ≤ -2 ∨ 2 ≤ c) ∧
    ((vm.pc = 0 ∧ vm.stack = []) ∨
     (vm.pc = 1 ∧ vm.stack = [1]) ∨
     (vm.pc = 2 ∧ vm.stack = [c, r]) ∨
     (vm.pc = 3 ∧ vm.stack = [c, c, r]) ∨
     (vm.pc = 4 ∧ vm.stack = [c * c, r]) ∨
     (vm.pc = 5 ∧ vm.stack = [1, c * c, r]) ∨
     (vm.pc = 6 ∧ vm.stack = [c * c, 1, r]) ∨
     (vm.pc = 7 ∧ vm.stack = [1 - c * c, r]) ∨
     (vm.pc = 8 ∧ vm.stack = [1 - c * c, 1 - c * c, r]) ∨
     (vm.pc = 9 ∧ vm.stack = [0, 1 - c * c, 1 - c * c, r]) ∨
     (vm.pc = 10 ∧ vm.stack = [1 - c * c, 0, 1 - c * c, r]) ∨
     (vm.pc = 11 ∧ vm.stack = [1, 1 - c * c, r]) ∨
     (vm.pc = 12 ∧ vm.stack = [1, 1, 1 - c * c, r]) ∨
     (vm.pc = 13 ∧ vm.stack = [0, 1 - c * c, r]))

/-- From any state satisfying the factorial loop invariant, every budget is
exhausted: the run faults with ExecutionLimitExceeded and emits no output. -/
theorem factorial_diverges_aux (fuel : Nat) :
    ∀ vm, factorialLoopInv vm →
      (run factorialProg fuel vm).faultKind = some .executionLimitExceeded ∧
      (run factorialProg fuel vm).outputOf = "" := by
  induction fuel with
  | zero =>
    rintro vm ⟨hout, -⟩
    simp [run, Outcome.faultKind, Outcome.outputOf, hout]
  | succ f ih =>
    rintro ⟨st, me, pc, inp, out, sp⟩ ⟨hout, c, r, hc, hshape⟩
    simp only at hout
    subst hout
    have hd : (1 : Int) - c * c ≤ -2 := by rcases hc with h | h <;> nlinarith
    rcases hshape with ⟨hpc, hst⟩ | ⟨hpc, hst⟩ | ⟨hpc, hst⟩ | ⟨hpc, hst⟩ | ⟨hpc, hst⟩ |
      ⟨hpc, hst⟩ | ⟨hpc, hst⟩ | ⟨hpc, hst⟩ | ⟨hpc, hst⟩ | ⟨hpc, hst⟩ | ⟨hpc, hst⟩ |
      ⟨hpc, hst⟩ | ⟨hpc, hst⟩ | ⟨hpc, hst⟩ <;>
      simp only at hpc hst <;> subst hpc <;> subst hst
    · rw [run_succ, show step factorialProg ⟨[], me, 0, inp, "", sp⟩ =
        .next ⟨[1], me, 1, inp, "", sp + 1⟩ from rfl]
      exact ih _ ⟨rfl, 5, 5, by norm_num, by norm_num⟩
    · rw [run_succ, show step factorialProg ⟨[1], me, 1, inp, "", sp⟩ =
        .next ⟨[5, 1], me, 2, inp, "", sp + 1⟩ from rfl]
      exact ih _ ⟨rfl, 5, 1, by norm_num, by norm_num⟩
    · rw [run_succ, show step factorialProg ⟨[c, r], me, 2, inp, "", sp⟩ =
        .next ⟨[c, c, r], me, 3, inp, "", sp + 1⟩ from rfl]
      exact ih _ ⟨rfl, c, r, hc, by simp⟩
    · rw [run_succ, show step factorialProg ⟨[c, c, r], me, 3, inp, "", sp⟩ =
        .next ⟨[c * c, r], me, 4, inp, "", sp + 1⟩ from rfl]
      exact ih _ ⟨rfl, c, r, hc, by simp⟩
    · rw [run_succ, show step factorialProg ⟨[c * c, r], me, 4, inp, "", sp⟩ =
        .next ⟨[1, c * c, r], me, 5, inp, "", sp + 1⟩ from rfl]
      exact ih _ ⟨rfl, c, r, hc, by simp⟩
    · rw [run_succ, show step factorialProg ⟨[1, c * c, r], me, 5, inp, "", sp⟩ =
        .next ⟨[c * c, 1, r], me, 6, inp, "", sp + 1⟩ from rfl]
      exact ih _ ⟨rfl, c, r, hc, by simp⟩
    · rw [run_succ, show step factorialProg ⟨[c * c, 1, r], me, 6, inp, "", sp⟩ =
        .next ⟨[1 - c * c, r], me, 7, inp, "", sp + 1⟩ from rfl]
      exact ih _ ⟨rfl, c, r, hc, by simp⟩
    · rw [run_succ, show step factorialProg ⟨[1 - c * c, r], me, 7, inp, "", sp⟩ =
        .next ⟨[1 - c * c, 1 - c * c, r], me, 8, inp, "", sp + 1⟩ from rfl]
      exact ih _ ⟨rfl, c, r, hc, by simp⟩
    · rw [run_succ, show step factorialProg ⟨[1 - c * c, 1 - c * c, r], me, 8, inp, "", sp⟩ =
        .next ⟨[0, 1 - c * c, 1 - c * c, r], me, 9, inp, "", sp + 1⟩ from rfl]
      exact ih _ ⟨rfl, c, r, hc, by simp⟩
    · rw [run_succ, show step factorialProg ⟨[0, 1 - c * c, 1 - c * c, r], me, 9, inp, "", sp⟩ =
        .next ⟨[1 - c * c, 0, 1 - c * c, r], me, 10, inp, "", sp + 1⟩ from rfl]
      exact ih _ ⟨rfl, c, r, hc, by simp⟩
    · rw [run_succ, show step factorialProg ⟨[1 - c * c, 0, 1 - c * c, r], me, 10, inp, "", sp⟩ =
        .next ⟨(if (0 : Int) > 1 - c * c then (1 : Int) else if (0 : Int) = 1 - c * c then 0 else -1) ::
          [1 - c * c, r], me, 11, inp, "", sp + 1⟩ from rfl,
        if_pos (show (0 : Int) > 1 - c * c by linarith)]
      exact ih _ ⟨rfl, c, r, hc, by simp⟩
    · rw [run_succ, show step factorialProg ⟨[1, 1 - c * c, r], me, 11, inp, "", sp⟩ =
        .next ⟨[1, 1, 1 - c * c, r], me, 12, inp, "", sp + 1⟩ from rfl]
      exact ih _ ⟨rfl, c, r, hc, by simp⟩
    · rw [run_succ, show step factorialProg ⟨[1, 1, 1 - c * c, r], me, 12, inp, "", sp⟩ =
        .next ⟨[0, 1 - c * c, r], me, 13, inp, "", sp + 1⟩ from rfl]
      exact ih _ ⟨rfl, c, r, hc, by simp⟩
    · rw [run_succ, show step factorialProg ⟨[0, 1 - c * c, r], me, 13, inp, "", sp⟩ =
        .next ⟨[1 - c * c, r], me, 2, inp, "", sp + 1⟩ from rfl]
      exact ih _ ⟨rfl, 1 - c * c, r, Or.inl hd, by simp⟩

/-- C2 (refuted): under the specified instruction semantics the factorial
example program never halts and never prints — its loop squares the counter
(`dup; mul`) and its decrement computes `1 − counter` — so for every step
budget the run faults with ExecutionLimitExceeded with empty output, rather
than terminating Halted with output "120". -/
theorem factorial_example_diverges :
    (∀ fuel : Nat,
      (runSource factorialSrc [] fuel).map Outcome.faultKind =
        .ok (some .executionLimitExceeded) ∧
      (runSource factorialSrc [] fuel).map Outcome.outputOf = .ok "") ∧
    (runSource factorialSrc [] 1000).map Outcome.status ≠ .ok .halted := by
  have hasm : assemble factorialSrc = .ok factorialProg := rfl
  have hmain : ∀ fuel : Nat,
      (run factorialProg fuel (initVM [])).faultKind = some .executionLimitExceeded ∧
      (run factorialProg fuel (initVM [])).outputOf = "" :=
    fun fuel => factorial_diverges_aux fuel _
      ⟨rfl, 5, 5, by norm_num, Or.inl (by constructor <;> rfl)⟩
  constructor
  · intro fuel
    have h := hmain fuel
    constructor <;> simp [runSource, hasm, Except.map, h.1, h.2]
  · intro hcon
    have h := (hmain 1000).1
    simp only [runSource, hasm, Except.map] at hcon
    rcases ho : run factorialProg 1000 (initVM []) with vm | ⟨k, pcf, vm⟩
    · rw [ho] at h
      simp [Outcome.faultKind] at h
    · rw [ho] at hcon
      simp [Outcome.status] at hcon

/-- A label that is defined later while already bound in the table makes
pass 1 fail with DuplicateLabel. -/
theorem pass1_dup_of_mem (src : List LineRec) (x : String) :
    ∀ (c : Nat) (t : List (String × Nat)), LineRec.labelDef x ∈ src →
      (t.lookup x).isSome → pass1 src c t = .error .duplicateLabel := by
  induction src with
  | nil =>
    intro c t hmem _
    cases hmem
  | cons r rest ih =>
    intro c t hmem hlook
    cases r with
    | labelDef y =>
      by_cases hy : (t.lookup y).isSome
      · simp [pass1, hy]
      · rcases List.mem_cons.mp hmem with heq | hrest
        · injection heq with hxy
          subst hxy
          exact absurd hlook hy
        · have hl2 : (((y, c) :: t).lookup x).isSome := by
            simp only [List.lookup]
            split
            · rfl
            · exact hlook
          simp only [pass1, hy, Bool.false_eq_true, if_false]
          exact ih c ((y, c) :: t) hrest hl2
    | instrLine m op =>
      rcases List.mem_cons.mp hmem with heq | hrest
      · simp at heq
      · simp only [pass1]
        exact ih (c + 1) t hrest hlook

/-- A label name defined twice anywhere in the source makes pass 1 fail with
DuplicateLabel regardless of the starting table. -/
theorem pass1_duplicate (src : List LineRec) (x : String) :
    ∀ (c : Nat) (t : List (String × Nat)), 2 ≤ src.count (LineRec.labelDef x) →
      pass1 src c t = .error .duplicateLabel := by
  induction src with
  | nil =>
    intro c t h
    simp [List.count] at h
  | cons r rest ih =>
    intro c t h
    by_cases hr : r = LineRec.labelDef x
    · subst hr
      have hcnt : 0 < rest.count (LineRec.labelDef x) := by
        rw [List.count_cons_self] at h
        omega
      have hmem : LineRec.labelDef x ∈ rest := List.count_pos_iff.mp hcnt
      by_cases hl : (t.lookup x).isSome
      · simp [pass1, hl]
      · simp only [pass1, hl, Bool.false_eq_true, if_false]
        exact pass1_dup_of_mem rest x c ((x, c) :: t) hmem (by simp [List.lookup])
    · have hcnt : 2 ≤ rest.count (LineRec.labelDef x) := by
        rwa [List.count_cons_of_ne (fun hcon => hr hcon.symm)] at h
      cases r with
      | labelDef y =>
        by_cases hy : (t.lookup y).isSome
        · simp [pass1, hy]
        · simp only [pass1, hy, Bool.false_eq_true, if_false]
          exact ih c ((y, c) :: t) hcnt
      | instrLine m op =>
        simp only [pass1]
        exact ih (c + 1) t hcnt

/-- C8: a source program that defines the same label name twice makes
Assemble fail with SyntaxError(DuplicateLabel); no Program is produced and
every attempted run fails with the same error. -/
theorem duplicate_label_blocks_assembly (src : List LineRec) (x : String)
    (h : 2 ≤ src.count (LineRec.labelDef x)) :
    assemble src = .error .duplicateLabel ∧
    ∀ (input : List Int) (budget : Nat),
      runSource src input budget = .error .duplicateLabel := by
  have hp := pass1_duplicate src x 0 [] h
  exact ⟨by simp [assemble, hp],
    fun input budget => by simp [runSource, assemble, hp, Except.map]⟩

/-- Witness for C8 at a concrete program: `a:` defined twice. -/
theorem duplicate_label_blocks_assembly_witness :
    assemble [LineRec.labelDef "a", LineRec.labelDef "a"] = .error .duplicateLabel ∧
    ∀ (input : List Int) (budget : Nat),
      runSource [LineRec.labelDef "a", LineRec.labelDef "a"] input budget =
        .error .duplicateLabel :=
  duplicate_label_blocks_assembly [LineRec.labelDef "a", LineRec.labelDef "a"] "a" (by decide)

/-- Every name bound in the table produced by pass 1 was either bound in the
starting table or defined by a label record of the source. -/
theorem pass1_lookup_mem (src : List LineRec) (x : String) :
    ∀ (c : Nat) (t t' : List (String × Nat)), pass1 src c t = .ok t' →
      (t'.lookup x).isSome → (t.lookup x).isSome ∨ LineRec.labelDef x ∈ src := by
  induction src with
  | nil =>
    intro c t t' hok hl
    left
    simp only [pass1, Except.ok.injEq] at hok
    rwa [hok]
  | cons r rest ih =>
    intro c t t' hok hl
    cases r with
    | labelDef y =>
      by_cases hy : (t.lookup y).isSome
      · simp [pass1, hy] at hok
      · simp only [pass1, hy, Bool.false_eq_true, if_false] at hok
        rcases ih c ((y, c) :: t) t' hok hl with hin | hmem
        · by_cases hxy : x = y
          · subst hxy
            right
            exact List.mem_cons_self _ _
          · left
            have hbeq : (x == y) = false := beq_eq_false_iff_ne.mpr hxy
            simpa only [List.lookup, hbeq] using hin
        · right
          exact List.mem_cons_of_mem _ hmem
    | instrLine m op =>
      simp only [pass1] at hok
      rcases ih (c + 1) t t' hok hl with hin | hmem
      · left
        exact hin
      · right
        exact List.mem_cons_of_mem _ hmem

/-- Encoding an address-operand instruction whose identifier is unbound in
the label table fails with UnresolvedLabel. -/
theorem encode_unresolved (count : Nat) (table : List (String × Nat)) (m x : String)
    (hm : m = "load" ∨ m = "store" ∨ m = "jump" ∨ m = "jumpif" ∨ m = "jumpifz")
    (hx : table.lookup x = none) :
    encode count table m (some (.ident x)) = .error .unresolvedLabel := by
  rcases hm with rfl | rfl | rfl | rfl | rfl <;>
    simp [encode, resolveMemTarget, resolveJumpTarget, Except.map, hx]

/-- Pass 2 fails on any record list containing an address instruction whose
identifier operand is unbound. -/
theorem pass2_fails (count : Nat) (table : List (String × Nat)) (m x : String)
    (hm : m = "load" ∨ m = "store" ∨ m = "jump" ∨ m = "jumpif" ∨ m = "jumpifz")
    (hx : table.lookup x = none) :
    ∀ src : List LineRec, LineRec.instrLine m (some (.ident x)) ∈ src →
      ∃ e, pass2 count table src = .error e := by
  intro src
  induction src with
  | nil =>
    intro h
    cases h
  | cons r rest ih =>
    intro hmem
    rcases List.mem_cons.mp hmem with heq | hrest
    · rw [← heq]
      exact ⟨.unresolvedLabel, by simp [pass2, encode_unresolved count table m x hm hx]⟩
    · cases r with
      | labelDef y =>
        simp only [pass2]
        exact ih hrest
      | instrLine m2 op2 =>
        rcases henc : encode count table m2 op2 with e | i
        · exact ⟨e, by simp [pass2, henc]⟩
        · rcases ih hrest with ⟨e, hp⟩
          exact ⟨e, by simp [pass2, henc, hp]⟩

/-- C7 (amended): a source program containing a `jump` (or `load`/`store`/
`jumpif`/`jumpifz`) whose identifier operand is never defined as a label
never assembles — some SyntaxError blocks Program creation and execution
never starts; when no other syntax error is present, as in the lone
`jump missing` program, the failure kind is UnresolvedLabel. -/
theorem unresolved_label_blocks_assembly :
    (∀ (src : List LineRec) (m x : String),
      (m = "load" ∨ m = "store" ∨ m = "jump" ∨ m = "jumpif" ∨ m = "jumpifz") →
      LineRec.instrLine m (some (.ident x)) ∈ src →
      (∀ y, LineRec.labelDef y ∈ src → y ≠ x) →
      ∃ e, assemble src = .error e ∧
        ∀ (input : List Int) (budget : Nat), runSource src input budget = .error e) ∧
    assemble jumpMissingSrc = .error .unresolvedLabel ∧
    (∀ (input : List Int) (budget : Nat),
      runSource jumpMissingSrc input budget = .error .unresolvedLabel) := by
  refine ⟨?_, rfl, fun input budget => rfl⟩
  intro src m x hm hmem hnolabel
  rcases hp1 : pass1 src 0 [] with e | table
  · exact ⟨e, by simp [assemble, hp1],
      fun input budget => by simp [runSource, assemble, hp1, Except.map]⟩
  · have hx : table.lookup x = none := by
      by_contra hsome
      rcases pass1_lookup_mem src x 0 [] table hp1 (Option.ne_none_iff_isSome.mp hsome) with
        hin | hmem2
      · simp [List.lookup] at hin
      · exact hnolabel x hmem2 rfl
    rcases pass2_fails (instrCount src) table m x hm hx src hmem with ⟨e, hp2⟩
    exact ⟨e, by simp [assemble, hp1, hp2],
      fun input budget => by simp [runSource, assemble, hp1, hp2, Except.map]⟩

/-- Witness for C7 (amended) at the concrete `jump missing` program. -/
theorem unresolved_label_blocks_assembly_witness :
    ∃ e, assemble [LineRec.instrLine "jump" (some (Operand.ident "missing"))] = .error e ∧
      ∀ (input : List Int) (budget : Nat),
        runSource [LineRec.instrLine "jump" (some (Operand.ident "missing"))] input budget =
          .error e :=
  unresolved_label_blocks_assembly.1 [LineRec.instrLine "jump" (some (.ident "missing"))]
    "jump" "missing" (Or.inr (Or.inr (Or.inl rfl))) (List.mem_singleton.mpr rfl)
    (fun y hy => by simp at hy)

/-- C7 counterexample to the claim as stated: a source program whose `jump`
identifier is never defined can still fail with DuplicateLabel instead of
UnresolvedLabel, because pass 1 (label binding) runs before any operand
resolution. -/
theorem unresolved_label_claim_counterexample :
    assemble [LineRec.labelDef "a", LineRec.labelDef "a",
      LineRec.instrLine "jump" (some (.ident "missing"))] = .error .duplicateLabel ∧
    SyntaxErrorKind.duplicateLabel ≠ SyntaxErrorKind.unresolvedLabel :=
  ⟨rfl, by decide⟩

/-- A single editor line, from the `EditLine` interface of
`src/app/page.tsx`. -/
structure EditLine where
  number : Nat
  content : String
deriving Repr, DecidableEq

/-- The editor payload the UI parses from a successful `edit` command
response, from the `EditEditor` interface of `src/app/page.tsx`.  The
`type : 'edit_editor'` tag is implicit: a JSON value with any other tag is
treated as no payload. -/
structure EditEditor where
  filename : String
  modified : Bool
  lines : List EditLine
  total_lines : Nat
  help : String
deriving Repr, DecidableEq

/-- The two edit-mode state fields of the `Home` component in
`src/app/page.tsx`: `isEditMode` and `editEditor`. -/
structure TermState where
  isEditMode : Bool
  editEditor : Option EditEditor
deriving Repr, DecidableEq

/-- Initial component state: `useState(false)` and
`useState<EditEditor | null>(null)`. -/
def initialTermState : TermState :=
  { isEditMode := false, editEditor := none }

/-- The `handleEditCommand` handler of `src/app/page.tsx`, restricted to the
two edit-mode fields.  `success` and `output` model the wasm response to the
`edit_input`-prefixed command and `parsed` models the attempted JSON parse
of the output (`some` exactly when parsing succeeded with the `edit_editor`
type tag).  On success with an editor payload the editor state is replaced
and the handler returns; otherwise `:q` or `:wq` leaves edit mode, clearing
both fields together.  Failed responses only log an error line. -/
def handleEditCommand (st : TermState) (input : String) (success : Bool)
    (output : String) (parsed : Option EditEditor) : TermState :=
  if success then
    if output ≠ "" ∧ parsed.isSome then { st with editEditor := parsed }
    else if input = ":q" ∨ input = ":wq" then { isEditMode := false, editEditor := none }
    else st
  else st

/-- Whitespace trimming as performed by JavaScript's `String.prototype.trim`
on the command input (an executable model of `command.trim()`). -/
def jsTrim (s : String) : String :=
  String.mk ((s.data.dropWhile Char.isWhitespace).reverse.dropWhile Char.isWhitespace).reverse

/-- The `executeCommand` handler of `src/app/page.tsx`, restricted to the two
edit-mode fields: blank commands are ignored; in edit mode the command is
routed to `handleEditCommand`; `clear` only clears the transcript; a
successful `edit ...` command whose non-empty output parses as editor data
enters edit mode, setting both fields together; every other path (including
`__CLEAR_SCREEN__`, plain output, error responses and thrown exceptions)
leaves the two fields unchanged. -/
def executeCommand (st : TermState) (command : String) (success : Bool)
    (output : String) (parsed : Option EditEditor) : TermState :=
  if jsTrim command = "" then st
  else if st.isEditMode then handleEditCommand st command success output parsed
  else if jsTrim command = "clear" then st
  else if success then
    if output ≠ "" ∧ command.startsWith "edit " then
      match parsed with
      | some ed => { isEditMode := true, editEditor := some ed }
      | none => st
    else st
  else st

/-- The edit-mode invariant of the terminal UI: `isEditMode` is true exactly
when `editEditor` is non-null. -/
def editInv (st : TermState) : Prop :=
  st.isEditMode = st.editEditor.isSome

/-- C10: the invariant `isEditMode = true ↔ editEditor ≠ null` holds in the
initial state and is preserved by every command handler; entering edit mode
sets both fields together, and exiting via `:q` or `:wq` clears both
together. -/
theorem edit_mode_invariant :
    editInv initialTermState ∧
    (∀ (st : TermState) (command : String) (success : Bool) (output : String)
        (parsed : Option EditEditor),
      editInv st → editInv (executeCommand st command success output parsed)) ∧
    (∀ (st : TermState) (command output : String) (ed : EditEditor),
      st.isEditMode = false → jsTrim command ≠ "" → jsTrim command ≠ "clear" →
      command.startsWith "edit " = true → output ≠ "" →
      executeCommand st command true output (some ed) =
        { isEditMode := true, editEditor := some ed }) ∧
    (∀ (st : TermState) (input : String),
      st.isEditMode = true → (input = ":q" ∨ input = ":wq") →
      executeCommand st input true "" none = { isEditMode := false, editEditor := none }) := by
  refine ⟨rfl, ?_, ?_, ?_⟩
  · intro st command success output parsed hinv
    rcases parsed with - | ed <;>
      simp only [executeCommand, handleEditCommand] <;>
      split_ifs <;>
      simp_all [editInv]
  · intro st command output ed hmode htrim hclear hstart hout
    simp [executeCommand, htrim, hmode, hclear, hstart, hout]
  · intro st input hmode hqw
    have htrim : jsTrim input ≠ "" := by
      rcases hqw with rfl | rfl <;> decide
    simp [executeCommand, handleEditCommand, htrim, hmode, hqw]

/-- Witness for C10 at concrete inputs: a successful ordinary command from
the initial state preserves the invariant. -/
theorem edit_mode_invariant_witness :
    editInv (executeCommand initialTermState "ls" true "file.txt" none) :=
  edit_mode_invariant.2.1 initialTermState "ls" true "file.txt" none rfl

end VirtualShell
